import Mathlib

/-!
Verification of the litdb CLI (src/litdb/cli.py) against its design
specification.

The repository ships only `cli.py` under src/.  The helper module
`litdb/db.py` (providing `add_source` and `update_filter`) and the external
libsql vector index primitive `vector_top_k` are referenced by `cli.py` but
their code is not in the repository snapshot; those pieces are modelled from
the specification, each marked `Modelled from the spec:` in its doc comment.
Everything else is translated directly from `cli.py`.

Conventions of the embedding:
* the sqlite database is a `DB` record of three tables, each a list of rows
  in insertion (rowid) order; an `insert` appends at the end of the list;
* timestamps/dates are natural numbers (only their order matters);
* text embeddings are integer vectors `List Int`; the embedding model is an
  explicit function parameter `emb : String → List Int`;
* Python exceptions become explicit `Except` error values.
-/

namespace Litdb

/-- A row of the `sources` table: one ingested corpus item.  The columns are
the identifier (`source`), the extracted text, the optional metadata bag
(`extra`), the embedding vector, and the creation date. -/
structure Source where
  source : String
  text : String
  extra : Option String := none
  embedding : List Int := []
  date_added : Nat := 0
deriving DecidableEq, Repr

/-- A row of the `queries` table: a saved OpenAlex filter with an optional
description and the `last_updated` watermark. -/
structure FilterRow where
  filter : String
  description : Option String := none
  last_updated : Nat := 0
deriving DecidableEq, Repr

/-- A row of the `directories` table: a watched directory path with its
`last_updated` scan watermark. -/
structure DirRow where
  path : String
  last_updated : Nat
deriving DecidableEq, Repr

/-- The litdb database: the three tables used by the commands under
verification, each in rowid (insertion) order. -/
structure DB where
  sources : List Source := []
  queries : List FilterRow := []
  directories : List DirRow := []
deriving DecidableEq, Repr

/-- A record returned by the external OpenAlex graph service: an identifier,
a display text, and a creation date. -/
structure Record where
  id : String
  text : String
  created : Nat := 0
deriving DecidableEq, Repr

/-- Outcome of submitting one candidate item to the dedup/upsert engine. -/
inductive Outcome where
  | Inserted
  | Skipped
  | Failed (reason : String)
deriving DecidableEq, Repr

/-- The Python exceptions that the searching commands can surface:
`typeError` is the `TypeError` raised by unpacking a `None` row from
`fetchone()`, `indexError` is an out-of-range list subscript, and
`notFoundError` stands for the dedicated lookup error named by the spec
(no code in the repository raises it). -/
inductive PyErr where
  | typeError
  | indexError
  | notFoundError
deriving DecidableEq, Repr

/-- The sqlite driver error for a mismatch between the number of `?`
placeholders in a statement and the number of bound parameters
(`sqlite3.ProgrammingError`). -/
inductive DBErr where
  | programmingError
deriving DecidableEq, Repr

instance {ε α : Type} [DecidableEq ε] [DecidableEq α] :
    DecidableEq (Except ε α) := fun x y =>
  match x, y with
  | .ok a, .ok b =>
      if h : a = b then .isTrue (by rw [h]) else .isFalse (by simp [h])
  | .error a, .error b =>
      if h : a = b then .isTrue (by rw [h]) else .isFalse (by simp [h])
  | .ok _, .error _ => .isFalse (by simp)
  | .error _, .ok _ => .isFalse (by simp)

/-- `select source from sources where source = ?` returns a row iff this is
true: the identifier is present in the corpus store. -/
def hasSource (db : DB) (i : String) : Bool :=
  db.sources.any (fun r => decide (r.source = i))

/-- The stored text for an identifier: the `text` column of the first
`sources` row whose `source` equals `i`. -/
def textOf (db : DB) (i : String) : Option String :=
  (db.sources.find? (fun r => decide (r.source = i))).map (·.text)

/-- The uniqueness invariant of the corpus store: identifiers occur at most
once among the `sources` rows. -/
def UniqIds (db : DB) : Prop :=
  (db.sources.map (·.source)).Nodup

/-- Whether a string is empty or whitespace-only. -/
def isBlank (s : String) : Bool :=
  s.toList.all (fun c => c.isWhitespace)

/-- Modelled from the spec: `add_source` lives in `litdb/db.py`, which is not
part of the repository snapshot.  Per §4.1 it is the single write path into
the corpus store: an already-present identifier is an idempotent no-op
(`Skipped`, never an update), empty/whitespace-only text is rejected with
nothing stored, and otherwise the row is inserted with its embedding.  The
duplicate check mirrors the pre-check `cli.py` itself performs at line 142
before extraction. -/
def add_source (emb : String → List Int) (db : DB) (source text : String) :
    DB × Outcome :=
  if hasSource db source then
    (db, .Skipped)
  else if isBlank text then
    (db, .Failed "EmptyTextError")
  else
    ({ db with
        sources := db.sources ++ [{ source := source, text := text,
                                    embedding := emb text }] },
     .Inserted)

/-- A whole sequence of ingestion calls, each routed through `add_source`. -/
def submitAll (emb : String → List Int) (db : DB)
    (ops : List (String × String)) : DB :=
  ops.foldl (fun d p => (add_source emb d p.1 p.2).1) db

/-! ### Cosine similarity and the vector index -/

/-- Dot product of two integer vectors. -/
def dot (a b : List Int) : Int :=
  ((a.zip b).map (fun p => p.1 * p.2)).sum

/-- Squared euclidean norm. -/
def normSq (a : List Int) : Int := dot a a

/-- `signedSq x = sign x * x ^ 2`; strictly monotone on the integers. -/
def signedSq (x : Int) : Int :=
  if x < 0 then -(x * x) else x * x

/-- Similarity key of a candidate vector `a` against a fixed query `q`:
the rational `signedSq (dot a q) / normSq a`.  For fixed `q` this equals
`sign s * s ^ 2 * normSq q` where `s` is the cosine similarity of `a` and
`q`, so it is a strictly increasing function of the cosine similarity;
ordering candidates by decreasing `simKey` is ordering by increasing
`vector_distance_cos`.  (For the zero vector, where cosine similarity is
undefined, the key is `0`.) -/
def simKey (q a : List Int) : ℚ :=
  mkRat (signedSq (dot a q)) (normSq a).toNat

/-- Candidate order for a query `q`: `a` before `b` iff `a`'s cosine
distance to `q` is no larger than `b`'s, i.e. `a`'s similarity key is no
smaller. -/
def SimGe (q : List Int) (a b : Source) : Prop :=
  simKey q b.embedding ≤ simKey q a.embedding

instance (q : List Int) : DecidableRel (SimGe q) := fun _ _ =>
  inferInstanceAs (Decidable (_ ≤ _))

instance (q : List Int) : IsTotal Source (SimGe q) :=
  ⟨fun a b => le_total (simKey q b.embedding) (simKey q a.embedding)⟩

instance (q : List Int) : IsTrans Source (SimGe q) :=
  ⟨fun _ _ _ h1 h2 => le_trans h2 h1⟩

/-- Modelled from the spec: `vector_top_k('embedding_idx', q, k)` is a libsql
vector-index primitive whose code is not in the repository.  Per §4.2 it
returns the `k` stored items closest to the query vector under cosine
distance, ordered by ascending distance, ties broken stably by insertion
order; joining on `sources.rowid = id` yields the corresponding rows.  A
stable sort of the rows by ascending cosine distance followed by `take k`
realises exactly that. -/
def vector_top_k (db : DB) (q : List Int) (k : Nat) : List Source :=
  (List.insertionSort (SimGe q) db.sources).take k

/-- The `vsearch` command: embed the query (here the embedding is passed in
as `q`), fetch the top `n` rows of the vector index joined with `sources`,
and report `(source, text, score)` triples in index order.  The score column
is `vector_distance_cos`; the model reports the order-equivalent `simKey`
(see `simKey`: larger key = smaller cosine distance). -/
def vsearch (db : DB) (q : List Int) (n : Nat) : List (String × String × ℚ) :=
  (vector_top_k db q n).map (fun r => (r.source, r.text, simKey q r.embedding))

/-- The `similar` command: `fetchone` the embedding of `source`; when no row
exists the unpacking `emb, = ...fetchone()` raises a `TypeError` on `None`.
Otherwise query the vector index for `n + 1` neighbours and drop the first
returned row (`fetchall()[1:]`), on the code's stated assumption that "the
first item is always the source". -/
def similar (db : DB) (s : String) (n : Nat) :
    Except PyErr (List (String × String)) :=
  match db.sources.find? (fun r => decide (r.source = s)) with
  | none => .error .typeError
  | some row =>
      .ok (((vector_top_k db row.embedding (n + 1)).drop 1).map
            (fun r => (r.source, r.text)))

/-! ### Filter sync -/

/-- Feed every fetched record through the dedup/upsert engine
(`add_source`), in order. -/
def commitRecords (emb : String → List Int) (db : DB) (recs : List Record) :
    DB :=
  recs.foldl (fun d r => (add_source emb d r.id r.text).1) db

/-- `update queries set last_updated = now where filter = f`. -/
def setWatermark (db : DB) (f : String) (now : Nat) : DB :=
  { db with
      queries := db.queries.map (fun q =>
        if q.filter = f then { q with last_updated := now } else q) }

/-- The `last_updated` watermark stored for filter `f`, if any. -/
def watermarkOf (db : DB) (f : String) : Option Nat :=
  (db.queries.find? (fun q => decide (q.filter = f))).map (·.last_updated)

/-- One sync cycle over the paginated fetch results for a filter: commit the
records of each successfully fetched page; a page fetch error stops the
cycle with the watermark untouched; only once every page has been processed
is the watermark advanced to `now`. -/
def syncPages (emb : String → List Int) (f : String) (now : Nat) :
    List (Except Unit (List Record)) → DB → DB
  | [], db => setWatermark db f now
  | .error _ :: _, db => db
  | .ok recs :: rest, db => syncPages emb f now rest (commitRecords emb db recs)

/-- Modelled from the spec: `update_filter` lives in `litdb/db.py`, which is
not part of the repository snapshot.  Per §4.3 it queries the graph service
for records created after the filter's watermark, paginating until
exhausted, submits each record through the dedup/upsert engine, catches
fetch errors (so the caller's loop is never aborted), and advances the
watermark to `now` only after all pages are processed.  The pages the
service would return are passed in as `pages`. -/
def update_filter (emb : String → List Int) (db : DB) (f : String) (now : Nat)
    (pages : List (Except Unit (List Record))) : DB :=
  syncPages emb f now pages db

/-- The `update_filters` command (cli.py lines 309-315): snapshot the list of
stored filters, then run `update_filter` on each in turn. -/
def update_filters (emb : String → List Int) (db : DB) (now : Nat)
    (pages : String → List (Except Unit (List Record))) : DB :=
  (db.queries.map (·.filter)).foldl
    (fun d f => update_filter emb d f now (pages f)) db

/-- Whether a fetched page is a successful fetch. -/
def pageOk : Except Unit (List Record) → Bool
  | .ok _ => true
  | .error _ => false

/-! ### The index command (directory scan) -/

/-- The file suffixes the `index` command recognises (cli.py line 138). -/
def recognizedExts : List String :=
  [".pdf", ".docx", ".pptx", ".org", ".md", ".html", ".bib", ".ipynb"]

/-- One filesystem entry seen by the directory walk: its (canonical) path,
its suffix, and the text its extraction adapter would produce — `none` when
the adapter raises (e.g. a corrupt PDF). -/
structure FileEntry where
  path : String
  ext : String
  content : Option String
deriving DecidableEq, Repr

/-- Tally of one directory scan, per the spec's
`scan(path) -> {added, skipped, failed}` contract. -/
structure ScanReport where
  added : Nat := 0
  skipped : Nat := 0
  failed : Nat := 0
deriving DecidableEq, Repr

/-- The per-file body of the `index` loop: files with unrecognised suffixes
are ignored; a recognised file whose path is already a stored identifier is
skipped before any extraction; otherwise the file is extracted and submitted
via the `add` path, any extraction failure being caught so the walk
continues. -/
def indexStep (emb : String → List Int) (st : DB × ScanReport)
    (f : FileEntry) : DB × ScanReport :=
  let (db, rep) := st
  if f.ext ∈ recognizedExts then
    if hasSource db f.path then
      (db, { rep with skipped := rep.skipped + 1 })
    else
      match f.content with
      | none => (db, { rep with failed := rep.failed + 1 })
      | some t =>
          match add_source emb db f.path t with
          | (db', .Inserted) => (db', { rep with added := rep.added + 1 })
          | (db', _) => (db', { rep with failed := rep.failed + 1 })
  else st

/-- `update directories ... / insert into directories ...` run after the
walk of one directory (cli.py lines 158-169). -/
def upsertDirectory (db : DB) (dir : String) (today : Nat) : DB :=
  if db.directories.any (fun d => decide (d.path = dir)) then
    { db with
        directories := db.directories.map (fun d =>
          if d.path = dir then { d with last_updated := today } else d) }
  else
    { db with
        directories := db.directories ++ [{ path := dir, last_updated := today }] }

/-- The `index` command for one directory: walk the files (the filesystem's
answer to `rglob` is passed in as `files`), run `indexStep` on each, and
after the full walk update-or-insert the directory's `last_updated`
watermark — unconditionally, failures notwithstanding. -/
def indexDir (emb : String → List Int) (db : DB) (dir : String)
    (files : List FileEntry) (today : Nat) : DB × ScanReport :=
  let st := files.foldl (indexStep emb) (db, {})
  (upsertDirectory st.1 dir today, st.2)

/-- The `last_updated` watermark stored for a watched directory, if any. -/
def dirWatermark (db : DB) (dir : String) : Option Nat :=
  (db.directories.find? (fun d => decide (d.path = dir))).map (·.last_updated)

/-! ### The watch, citing and related commands -/

/-- Number of `?` parameter placeholders in a SQL statement. -/
def countPlaceholders (s : String) : Nat :=
  s.toList.countP (fun c => decide (c = '?'))

/-- The SQL text of the insert the `watch` command executes
(cli.py lines 448-449). -/
def watchInsertSQL : String :=
  "insert or ignore into queries(filter, description) values (?, ?)"

/-- The sqlite binding step of `execute`: the statement runs only when the
number of bound parameters equals the number of placeholders; otherwise the
driver raises `sqlite3.ProgrammingError` and nothing is written. -/
def bindParams (sql : String) (params : List String) : Except DBErr Unit :=
  if countPlaceholders sql = params.length then .ok () else .error .programmingError

/-- `insert or ignore into queries(filter, description) values (?, ?)` with
both parameters supplied. -/
def insertOrIgnoreQuery (db : DB) (f : String) (desc : Option String) : DB :=
  if db.queries.any (fun q => decide (q.filter = f)) then db
  else { db with queries := db.queries ++ [{ filter := f, description := desc }] }

/-- The `watch` command (cli.py lines 420-452).  With `--remove` it deletes
the filter row.  Otherwise it validates the query against OpenAlex (the
service's result list is passed in as `results`), printing a warning when
nothing matched, and then executes `watchInsertSQL` — but binds only the
one-element parameter tuple `(query,)`, so the bind step decides what
happens.  Returns the printed messages and either the resulting database or
the driver error. -/
def watch (db : DB) (query : String) (remove : Bool) (results : List Record) :
    List String × Except DBErr DB :=
  if remove then
    ([], .ok { db with
                 queries := db.queries.filter (fun q => !decide (q.filter = query)) })
  else
    let msgs := if results.length = 0 then
        ["Sorry, " ++ query ++ " does not seem valid."] else []
    match bindParams watchInsertSQL [query] with
    | .error e => (msgs, .error e)
    | .ok _ => (msgs, .ok (insertOrIgnoreQuery db query none))

/-- The `citing` command (cli.py lines 455-483): look up the DOI on OpenAlex
(results passed in), print a warning when the lookup is empty, then — with
no early return — evaluate `data['results'][0]['id']`, which on an empty
result list raises `IndexError`.  With a work id in hand, add or remove the
`cites:` filter. -/
def citing (db : DB) (doi : String) (remove : Bool) (results : List Record) :
    List String × Except PyErr DB :=
  let msgs := if results.length = 0 then
      ["Sorry, " ++ doi ++ " does not seem valid."] else []
  match results with
  | [] => (msgs, .error .indexError)
  | w :: _ =>
      if remove then
        (msgs, .ok { db with
                       queries := db.queries.filter
                         (fun q => !decide (q.filter = "cites:" ++ w.id)) })
      else
        (msgs, .ok (insertOrIgnoreQuery db ("cites:" ++ w.id)
                      (some ("Citing papers for " ++ doi))))

/-- The `related` command (cli.py lines 486-514): identical to `citing` but
for the `related_to:` filter. -/
def related (db : DB) (doi : String) (remove : Bool) (results : List Record) :
    List String × Except PyErr DB :=
  let msgs := if results.length = 0 then
      ["Sorry, " ++ doi ++ " does not seem valid."] else []
  match results with
  | [] => (msgs, .error .indexError)
  | w :: _ =>
      if remove then
        (msgs, .ok { db with
                       queries := db.queries.filter
                         (fun q => !decide (q.filter = "related_to:" ++ w.id)) })
      else
        (msgs, .ok (insertOrIgnoreQuery db ("related_to:" ++ w.id)
                      (some ("Related papers for " ++ doi))))

/-! ### Concrete fixtures for the witnesses and counterexamples -/

/-- Concrete corpus for the C1 witness: one stored row. -/
def dbC1 : DB := { sources := [{ source := "a", text := "t1", embedding := [1] }] }

/-- A fixed embedding model used by the concrete instances. -/
def embW : String → List Int := fun _ => [1]

/-- The C1 witness re-submits identifier `a` with different text and then
adds a fresh identifier. -/
def opsC1 : List (String × String) := [("a", "t2"), ("b", "t3")]

/-- The empty database, for the concrete instances. -/
def dbEmpty : DB := {}

/-- Queries table with two filters at watermark 3, for the C2/C3 witnesses. -/
def dbC2 : DB :=
  { queries := [{ filter := "f1", last_updated := 3 },
                { filter := "f2", last_updated := 3 }] }

/-- A single successfully fetched page, for the C2 witness. -/
def pagesC2 : List (Except Unit (List Record)) :=
  [Except.ok [{ id := "r1", text := "tr", created := 4 }]]

/-- Fetch outcomes for the C3 witness: the fetch for filter `f1` fails while
the fetch for `f2` succeeds. -/
def pagesC3 : String → List (Except Unit (List Record)) :=
  fun f => if f = "f1" then [Except.error ()]
           else [Except.ok [{ id := "r2", text := "tr2", created := 4 }]]

/-- Corpus with two rows sharing one embedding (the same text ingested under
two identifiers), for the C4 counterexample; `A` was inserted first. -/
def dbC4 : DB :=
  { sources := [{ source := "A", text := "ta", embedding := [1] },
                { source := "B", text := "tb", embedding := [1] }] }

/-- Corpus of two rows with distinct embeddings, for the amended-C4 witness. -/
def dbC4w : DB :=
  { sources := [{ source := "A", text := "ta", embedding := [2, 0] },
                { source := "B", text := "tb", embedding := [1, 1] }] }

/-- The Scenario-5 file list: one corrupt PDF (its adapter raises) and one
valid markdown file. -/
def filesC8 : List FileEntry :=
  [{ path := "/d/bad.pdf", ext := ".pdf", content := none },
   { path := "/d/good.md", ext := ".md", content := some "hello" }]

/-! ### Lemmas: the dedup/upsert engine -/

theorem add_source_skips (emb : String → List Int) (db : DB) (i t : String)
    (h : hasSource db i = true) :
    add_source emb db i t = (db, Outcome.Skipped) := by
  simp [add_source, h]

theorem queries_add_source (emb : String → List Int) (db : DB) (i t : String) :
    (add_source emb db i t).1.queries = db.queries := by
  unfold add_source
  split
  · rfl
  · split <;> rfl

theorem directories_add_source (emb : String → List Int) (db : DB)
    (i t : String) :
    (add_source emb db i t).1.directories = db.directories := by
  unfold add_source
  split
  · rfl
  · split <;> rfl

theorem hasSource_add_source (emb : String → List Int) (db : DB)
    (i t j : String) (h : hasSource db j = true) :
    hasSource (add_source emb db i t).1 j = true := by
  unfold add_source
  split
  · exact h
  · split
    · exact h
    · simp only [hasSource] at h ⊢
      simp [List.any_append, h]

theorem textOf_add_source (emb : String → List Int) (db : DB) (i t j : String)
    (h : hasSource db j = true) :
    textOf (add_source emb db i t).1 j = textOf db j := by
  unfold add_source
  split
  · rfl
  · split
    · rfl
    · have hs : (db.sources.find? (fun r => decide (r.source = j))).isSome := by
        rw [List.find?_isSome]
        simpa [hasSource, List.any_eq_true] using h
      simp only [textOf]
      rw [List.find?_append]
      cases hfind : db.sources.find? (fun r => decide (r.source = j)) with
      | none => rw [hfind] at hs; simp at hs
      | some a => simp

theorem uniqIds_add_source (emb : String → List Int) (db : DB) (i t : String)
    (h : UniqIds db) : UniqIds (add_source emb db i t).1 := by
  unfold add_source
  split
  · exact h
  · next hns =>
    split
    · exact h
    · unfold UniqIds at h ⊢
      simp only [List.map_append, List.map_cons, List.map_nil]
      rw [List.nodup_append]
      refine ⟨h, List.nodup_singleton _, ?_⟩
      intro x hx hmem
      simp only [List.mem_singleton] at hmem
      have hfalse : hasSource db i = false := Bool.not_eq_true _ ▸ hns
      rw [hasSource, List.any_eq_false] at hfalse
      rcases List.mem_map.mp hx with ⟨r, hr, hri⟩
      exact hfalse r hr (by simp [hri, hmem])

theorem hasSource_submitAll (emb : String → List Int) (db : DB)
    (ops : List (String × String)) (j : String) (h : hasSource db j = true) :
    hasSource (submitAll emb db ops) j = true := by
  induction ops generalizing db with
  | nil => exact h
  | cons p rest ih => exact ih _ (hasSource_add_source emb db p.1 p.2 j h)

theorem textOf_submitAll (emb : String → List Int) (db : DB)
    (ops : List (String × String)) (j : String) (h : hasSource db j = true) :
    textOf (submitAll emb db ops) j = textOf db j := by
  induction ops generalizing db with
  | nil => rfl
  | cons p rest ih =>
      have h2 := hasSource_add_source emb db p.1 p.2 j h
      calc textOf (submitAll emb (add_source emb db p.1 p.2).1 rest) j
          = textOf (add_source emb db p.1 p.2).1 j := ih _ h2
        _ = textOf db j := textOf_add_source emb db p.1 p.2 j h

theorem uniqIds_submitAll (emb : String → List Int) (db : DB)
    (ops : List (String × String)) (h : UniqIds db) :
    UniqIds (submitAll emb db ops) := by
  induction ops generalizing db with
  | nil => exact h
  | cons p rest ih => exact ih _ (uniqIds_add_source emb db p.1 p.2 h)

/-! ### Claim theorems -/

/-- Claim C1: for every identifier and any sequence of submit/add calls, the
corpus store keeps at most one row per identifier; re-ingestion of an
existing identifier returns `Skipped` and changes nothing, the stored text
stays the first value, and no duplicate row appears. -/
theorem c1_dedup_idempotent (emb : String → List Int) (db : DB)
    (ops : List (String × String)) (h : UniqIds db) :
    UniqIds (submitAll emb db ops)
    ∧ (∀ i t, hasSource db i = true →
        add_source emb db i t = (db, Outcome.Skipped))
    ∧ (∀ i, hasSource db i = true →
        textOf (submitAll emb db ops) i = textOf db i) :=
  ⟨uniqIds_submitAll emb db ops h,
   fun i t hi => add_source_skips emb db i t hi,
   fun i hi => textOf_submitAll emb db ops i hi⟩

/-- Witness for C1 at a concrete store and submit sequence; the stored text
for `a` indeed remains the first value `t1`. -/
theorem c1_dedup_idempotent_witness :
    (UniqIds (submitAll embW dbC1 opsC1)
      ∧ (∀ i t, hasSource dbC1 i = true →
          add_source embW dbC1 i t = (dbC1, Outcome.Skipped))
      ∧ (∀ i, hasSource dbC1 i = true →
          textOf (submitAll embW dbC1 opsC1) i = textOf dbC1 i))
    ∧ textOf (submitAll embW dbC1 opsC1) "a" = some "t1" :=
  ⟨c1_dedup_idempotent embW dbC1 opsC1 (by unfold UniqIds; decide), by decide⟩

/-- Counterexample to claim C6 as stated: on the empty store, `similar` for
the absent identifier `x` fails with the `TypeError` raised by unpacking the
`None` returned by `fetchone()` — an unrelated error, not a `NotFoundError`. -/
theorem c6_notfound_counterexample :
    hasSource dbEmpty "x" = false
    ∧ similar dbEmpty "x" 3 = Except.error PyErr.typeError
    ∧ similar dbEmpty "x" 3 ≠ Except.error PyErr.notFoundError :=
  ⟨by decide, by decide, by decide⟩

/-- Claim C6 amended: when the given identifier has no stored CorpusItem the
`similar` command does fail rather than return results, but with the
`TypeError` from unpacking the absent row, not with a dedicated
`NotFoundError`. -/
theorem c6_missing_identifier_fails (db : DB) (s : String) (n : Nat)
    (h : hasSource db s = false) :
    similar db s n = Except.error PyErr.typeError := by
  unfold similar
  have hnone : db.sources.find? (fun r => decide (r.source = s)) = none := by
    rw [List.find?_eq_none]
    rw [hasSource, List.any_eq_false] at h
    exact h
  rw [hnone]

/-- Witness for the amended C6 on a non-empty store and an absent
identifier. -/
theorem c6_missing_identifier_fails_witness :
    hasSource dbC1 "zzz" = false
    ∧ similar dbC1 "zzz" 3 = Except.error PyErr.typeError :=
  ⟨by decide, c6_missing_identifier_fails dbC1 "zzz" 3 (by decide)⟩

/-- Claim C9: the `watch` command without `--remove` executes an INSERT whose
SQL carries two `?` placeholders but binds the one-element tuple `(query,)`,
so the sqlite driver rejects it with a parameter-count error and no filter
row is ever stored by this path. -/
theorem c9_watch_insert_param_mismatch (db : DB) (query : String)
    (results : List Record) :
    countPlaceholders watchInsertSQL = 2
    ∧ (watch db query false results).2 = Except.error DBErr.programmingError :=
  ⟨by decide, rfl⟩

/-- Claim C10: on a DOI whose OpenAlex lookup returns zero results, `citing`
and `related` print the "does not seem valid" message yet still evaluate
`data['results'][0]`, so they end in an `IndexError` instead of stopping
after the validity check. -/
theorem c10_citing_related_index_error (db : DB) (doi : String)
    (remove : Bool) :
    (citing db doi remove []).1 = ["Sorry, " ++ doi ++ " does not seem valid."]
    ∧ (citing db doi remove []).2 = Except.error PyErr.indexError
    ∧ (related db doi remove []).1 = ["Sorry, " ++ doi ++ " does not seem valid."]
    ∧ (related db doi remove []).2 = Except.error PyErr.indexError :=
  ⟨rfl, rfl, rfl, rfl⟩

/-! ### Lemmas: the index command -/

theorem hasSource_add_source_self (emb : String → List Int) (db : DB)
    (i t : String) (habs : hasSource db i = false) (hb : isBlank t = false) :
    hasSource (add_source emb db i t).1 i = true := by
  unfold add_source
  rw [habs, hb]
  simp [hasSource, List.any_append]

theorem indexStep_fst (emb : String → List Int) (st : DB × ScanReport)
    (f : FileEntry) :
    (indexStep emb st f).1 = st.1
    ∨ ∃ t, (indexStep emb st f).1 = (add_source emb st.1 f.path t).1 := by
  obtain ⟨db, rep⟩ := st
  unfold indexStep
  dsimp only
  split
  · split
    · exact Or.inl rfl
    · split
      · exact Or.inl rfl
      · next t hc =>
        split
        · next db' heq => exact Or.inr ⟨t, by rw [heq]⟩
        · next db' o hne heq => exact Or.inr ⟨t, by rw [heq]⟩
  · exact Or.inl rfl

theorem indexStep_eq_of_absent (emb : String → List Int) (db : DB)
    (rep : ScanReport) (f : FileEntry) (t : String)
    (hext : f.ext ∈ recognizedExts) (habs : hasSource db f.path = false)
    (hc : f.content = some t) :
    (indexStep emb (db, rep) f).1 = (add_source emb db f.path t).1 := by
  unfold indexStep
  dsimp only
  rw [if_pos hext, if_neg (by rw [habs]; exact Bool.false_ne_true), hc]
  dsimp only
  split
  · next db' heq => rw [heq]
  · next db' o hne heq => rw [heq]

theorem hasSource_indexStep (emb : String → List Int) (st : DB × ScanReport)
    (f : FileEntry) (j : String) (h : hasSource st.1 j = true) :
    hasSource (indexStep emb st f).1 j = true := by
  rcases indexStep_fst emb st f with heq | ⟨t, heq⟩
  · rw [heq]; exact h
  · rw [heq]; exact hasSource_add_source emb st.1 f.path t j h

theorem textOf_indexStep (emb : String → List Int) (st : DB × ScanReport)
    (f : FileEntry) (j : String) (h : hasSource st.1 j = true) :
    textOf (indexStep emb st f).1 j = textOf st.1 j := by
  rcases indexStep_fst emb st f with heq | ⟨t, heq⟩
  · rw [heq]
  · rw [heq]; exact textOf_add_source emb st.1 f.path t j h

theorem hasSource_indexStep_self (emb : String → List Int)
    (st : DB × ScanReport) (f : FileEntry) (t : String)
    (hext : f.ext ∈ recognizedExts) (hc : f.content = some t)
    (hb : isBlank t = false) :
    hasSource (indexStep emb st f).1 f.path = true := by
  obtain ⟨db, rep⟩ := st
  by_cases hknown : hasSource db f.path = true
  · exact hasSource_indexStep emb (db, rep) f f.path hknown
  · have habs : hasSource db f.path = false := Bool.not_eq_true _ ▸ hknown
    rw [indexStep_eq_of_absent emb db rep f t hext habs hc]
    exact hasSource_add_source_self emb db f.path t habs hb

theorem hasSource_scanFold (emb : String → List Int) (files : List FileEntry)
    (st : DB × ScanReport) (j : String) (h : hasSource st.1 j = true) :
    hasSource (files.foldl (indexStep emb) st).1 j = true := by
  induction files generalizing st with
  | nil => exact h
  | cons g rest ih => exact ih _ (hasSource_indexStep emb st g j h)

theorem textOf_scanFold (emb : String → List Int) (files : List FileEntry)
    (st : DB × ScanReport) (j : String) (h : hasSource st.1 j = true) :
    textOf (files.foldl (indexStep emb) st).1 j = textOf st.1 j := by
  induction files generalizing st with
  | nil => rfl
  | cons g rest ih =>
      calc textOf (rest.foldl (indexStep emb) (indexStep emb st g)).1 j
          = textOf (indexStep emb st g).1 j :=
            ih _ (hasSource_indexStep emb st g j h)
        _ = textOf st.1 j := textOf_indexStep emb st g j h

theorem hasSource_scanFold_of_mem (emb : String → List Int)
    (files : List FileEntry) (st : DB × ScanReport) (f : FileEntry)
    (t : String) (hf : f ∈ files) (hext : f.ext ∈ recognizedExts)
    (hc : f.content = some t) (hb : isBlank t = false) :
    hasSource (files.foldl (indexStep emb) st).1 f.path = true := by
  induction files generalizing st with
  | nil => cases hf
  | cons g rest ih =>
      rcases List.mem_cons.mp hf with hfg | hfr
      · subst hfg
        exact hasSource_scanFold emb rest _ f.path
          (hasSource_indexStep_self emb st f t hext hc hb)
      · exact ih _ hfr

theorem sources_upsertDirectory (db : DB) (dir : String) (today : Nat) :
    (upsertDirectory db dir today).sources = db.sources := by
  unfold upsertDirectory
  split <;> rfl

theorem find?_update_dirs (l : List DirRow) (dir : String) (today : Nat) :
    (l.map (fun d => if d.path = dir then { d with last_updated := today }
                     else d)).find? (fun d => decide (d.path = dir))
      = (l.find? (fun d => decide (d.path = dir))).map
          (fun d => { d with last_updated := today }) := by
  induction l with
  | nil => rfl
  | cons a rest ih =>
      by_cases h : a.path = dir
      · simp [h]
      · simp [h, ih]

theorem dirWatermark_upsertDirectory (db : DB) (dir : String) (today : Nat) :
    dirWatermark (upsertDirectory db dir today) dir = some today := by
  unfold upsertDirectory dirWatermark
  split
  · next hany =>
    dsimp only
    rw [find?_update_dirs]
    rcases List.any_eq_true.mp hany with ⟨d, hd, hpd⟩
    have hs : (db.directories.find? (fun d => decide (d.path = dir))).isSome := by
      rw [List.find?_isSome]
      exact ⟨d, hd, hpd⟩
    cases hfind : db.directories.find? (fun d => decide (d.path = dir)) with
    | none => rw [hfind] at hs; simp at hs
    | some a => simp
  · next hany =>
    dsimp only
    rw [List.find?_append]
    have hnone : db.directories.find? (fun d => decide (d.path = dir)) = none := by
      rw [List.find?_eq_none]
      exact List.any_eq_false.mp (Bool.not_eq_true _ ▸ hany)
    rw [hnone]
    simp

/-- Claim C7: during a directory scan, every recognised file whose canonical
path is already a stored identifier is skipped — the stored row (in
particular its text) is untouched — and absent recognised files are
extracted and submitted, ending up in the store. -/
theorem c7_scan_skips_known (emb : String → List Int) (db : DB) (dir : String)
    (files : List FileEntry) (today : Nat) :
    (∀ i, hasSource db i = true →
        textOf (indexDir emb db dir files today).1 i = textOf db i)
    ∧ (∀ f ∈ files, f.ext ∈ recognizedExts → hasSource db f.path = false →
        ∀ t, f.content = some t → isBlank t = false →
          hasSource (indexDir emb db dir files today).1 f.path = true) := by
  constructor
  · intro i hi
    show textOf (upsertDirectory (files.foldl (indexStep emb) (db, {})).1 dir today) i
        = textOf db i
    rw [textOf, sources_upsertDirectory, ← textOf]
    exact textOf_scanFold emb files (db, {}) i hi
  · intro f hf hext _ t hc hb
    show hasSource (upsertDirectory (files.foldl (indexStep emb) (db, {})).1 dir today) f.path
        = true
    rw [hasSource, sources_upsertDirectory, ← hasSource]
    exact hasSource_scanFold_of_mem emb files (db, {}) f t hf hext hc hb

/-- Witness for C7: scanning over a store that already holds identifier `a`
leaves its text untouched, and the absent markdown file is added. -/
theorem c7_scan_skips_known_witness :
    ((∀ i, hasSource dbC1 i = true →
        textOf (indexDir embW dbC1 "/d" filesC8 7).1 i = textOf dbC1 i)
      ∧ (∀ f ∈ filesC8, f.ext ∈ recognizedExts →
          hasSource dbC1 f.path = false →
          ∀ t, f.content = some t → isBlank t = false →
            hasSource (indexDir embW dbC1 "/d" filesC8 7).1 f.path = true))
    ∧ textOf (indexDir embW dbC1 "/d" filesC8 7).1 "a" = some "t1"
    ∧ hasSource (indexDir embW dbC1 "/d" filesC8 7).1 "/d/good.md" = true :=
  ⟨c7_scan_skips_known embW dbC1 "/d" filesC8 7, by decide, by decide⟩

/-- Claim C8: a per-file extraction failure is caught and does not abort the
walk — every other recognised file with extractable text still ends up in
the store — and the directory's `last_updated` watermark is updated or
inserted at the end of the full walk regardless of failures. -/
theorem c8_scan_failure_isolated (emb : String → List Int) (db : DB)
    (dir : String) (files : List FileEntry) (today : Nat) :
    dirWatermark (indexDir emb db dir files today).1 dir = some today
    ∧ (∀ f ∈ files, f.ext ∈ recognizedExts →
        ∀ t, f.content = some t → isBlank t = false →
          hasSource (indexDir emb db dir files today).1 f.path = true) := by
  constructor
  · exact dirWatermark_upsertDirectory _ dir today
  · intro f hf hext t hc hb
    show hasSource (upsertDirectory (files.foldl (indexStep emb) (db, {})).1 dir today) f.path
        = true
    rw [hasSource, sources_upsertDirectory, ← hasSource]
    exact hasSource_scanFold_of_mem emb files (db, {}) f t hf hext hc hb

/-- Witness for C8, Scenario 5: scanning a directory with one corrupt PDF
and one valid markdown file yields `added = 1, failed = 1`, the markdown
file is stored, and `last_updated` is still written. -/
theorem c8_scan_failure_isolated_witness :
    (dirWatermark (indexDir embW dbEmpty "/d" filesC8 7).1 "/d" = some 7
      ∧ (∀ f ∈ filesC8, f.ext ∈ recognizedExts →
          ∀ t, f.content = some t → isBlank t = false →
            hasSource (indexDir embW dbEmpty "/d" filesC8 7).1 f.path = true))
    ∧ (indexDir embW dbEmpty "/d" filesC8 7).2
        = { added := 1, skipped := 0, failed := 1 } :=
  ⟨c8_scan_failure_isolated embW dbEmpty "/d" filesC8 7, by decide⟩

/-! ### Lemmas: filter sync -/

theorem hasSource_add_source_any (emb : String → List Int) (db : DB)
    (i t : String) (hb : isBlank t = false) :
    hasSource (add_source emb db i t).1 i = true := by
  by_cases h : hasSource db i = true
  · exact hasSource_add_source emb db i t i h
  · exact hasSource_add_source_self emb db i t (Bool.not_eq_true _ ▸ h) hb

theorem queries_commitRecords (emb : String → List Int) (db : DB)
    (recs : List Record) :
    (commitRecords emb db recs).queries = db.queries := by
  induction recs generalizing db with
  | nil => rfl
  | cons r rest ih =>
      calc (commitRecords emb (add_source emb db r.id r.text).1 rest).queries
          = (add_source emb db r.id r.text).1.queries := ih _
        _ = db.queries := queries_add_source emb db r.id r.text

theorem hasSource_commitRecords (emb : String → List Int) (db : DB)
    (recs : List Record) (j : String) (h : hasSource db j = true) :
    hasSource (commitRecords emb db recs) j = true := by
  induction recs generalizing db with
  | nil => exact h
  | cons r rest ih => exact ih _ (hasSource_add_source emb db r.id r.text j h)

theorem hasSource_commitRecords_mem (emb : String → List Int) (db : DB)
    (recs : List Record) (r : Record) (hr : r ∈ recs)
    (hb : isBlank r.text = false) :
    hasSource (commitRecords emb db recs) r.id = true := by
  induction recs generalizing db with
  | nil => cases hr
  | cons a rest ih =>
      rcases List.mem_cons.mp hr with h1 | h2
      · subst h1
        exact hasSource_commitRecords emb _ rest r.id
          (hasSource_add_source_any emb db r.id r.text hb)
      · exact ih _ h2

theorem find?_update_queries (l : List FilterRow) (f : String) (now : Nat) :
    (l.map (fun q => if q.filter = f then { q with last_updated := now }
                     else q)).find? (fun q => decide (q.filter = f))
      = (l.find? (fun q => decide (q.filter = f))).map
          (fun q => { q with last_updated := now }) := by
  induction l with
  | nil => rfl
  | cons a rest ih =>
      by_cases h : a.filter = f
      · simp [h]
      · simp [h, ih]

theorem watermarkOf_setWatermark (db : DB) (f : String) (now w : Nat)
    (hw : watermarkOf db f = some w) :
    watermarkOf (setWatermark db f now) f = some now := by
  unfold watermarkOf setWatermark
  dsimp only
  rw [find?_update_queries]
  cases hfind : db.queries.find? (fun q => decide (q.filter = f)) with
  | none => rw [watermarkOf, hfind] at hw; simp at hw
  | some a => simp

theorem watermarkOf_setWatermark_other (db : DB) (f g : String) (now : Nat)
    (hne : g ≠ f) :
    watermarkOf (setWatermark db f now) g = watermarkOf db g := by
  unfold watermarkOf setWatermark
  dsimp only
  congr 1
  induction db.queries with
  | nil => rfl
  | cons a rest ih =>
      have hfa : (if a.filter = f then { a with last_updated := now }
                  else a).filter = a.filter := by
        split <;> rfl
      by_cases hag : a.filter = g
      · have haf : ¬a.filter = f := fun h => hne (hag ▸ h ▸ rfl)
        have hmap : (if a.filter = f then { a with last_updated := now }
                     else a) = a := if_neg haf
        simp only [List.map_cons, hmap]
        rw [List.find?_cons_of_pos _ (by simp [hag]),
            List.find?_cons_of_pos _ (by simp [hag])]
      · simp only [List.map_cons]
        rw [List.find?_cons_of_neg _ (by simp [hfa, hag]),
            List.find?_cons_of_neg _ (by simp [hag])]
        exact ih

theorem hasSource_syncPages (emb : String → List Int) (f : String) (now : Nat)
    (pages : List (Except Unit (List Record))) (db : DB) (j : String)
    (h : hasSource db j = true) :
    hasSource (syncPages emb f now pages db) j = true := by
  induction pages generalizing db with
  | nil => exact h
  | cons p rest ih =>
      cases p with
      | error e => exact h
      | ok recs => exact ih _ (hasSource_commitRecords emb db recs j h)

theorem watermarkOf_syncPages_err (emb : String → List Int) (f : String)
    (now : Nat) (pages : List (Except Unit (List Record))) (db : DB)
    (herr : ∃ p ∈ pages, pageOk p = false) :
    watermarkOf (syncPages emb f now pages db) f = watermarkOf db f := by
  induction pages generalizing db with
  | nil => rcases herr with ⟨p, hp, _⟩; cases hp
  | cons p rest ih =>
      cases p with
      | error e => rfl
      | ok recs =>
          rcases herr with ⟨p', hp', hop'⟩
          rcases List.mem_cons.mp hp' with h1 | h2
          · rw [h1] at hop'; cases hop'
          · calc watermarkOf (syncPages emb f now rest (commitRecords emb db recs)) f
                = watermarkOf (commitRecords emb db recs) f := ih _ ⟨p', h2, hop'⟩
              _ = watermarkOf db f := by
                  unfold watermarkOf
                  rw [queries_commitRecords]

theorem watermarkOf_syncPages_ok (emb : String → List Int) (f : String)
    (now : Nat) (pages : List (Except Unit (List Record))) (db : DB) (w : Nat)
    (hok : ∀ p ∈ pages, pageOk p = true) (hw : watermarkOf db f = some w) :
    watermarkOf (syncPages emb f now pages db) f = some now := by
  induction pages generalizing db with
  | nil => exact watermarkOf_setWatermark db f now w hw
  | cons p rest ih =>
      cases p with
      | error e => cases hok _ (List.mem_cons_self _ _)
      | ok recs =>
          refine ih _ (fun p hp => hok p (List.mem_cons_of_mem _ hp)) ?_
          unfold watermarkOf
          rw [queries_commitRecords]
          exact hw

theorem hasSource_syncPages_mem (emb : String → List Int) (f : String)
    (now : Nat) (pages : List (Except Unit (List Record))) (db : DB)
    (recs : List Record) (r : Record)
    (hok : ∀ p ∈ pages, pageOk p = true) (hrecs : Except.ok recs ∈ pages)
    (hr : r ∈ recs) (hb : isBlank r.text = false) :
    hasSource (syncPages emb f now pages db) r.id = true := by
  induction pages generalizing db with
  | nil => cases hrecs
  | cons p rest ih =>
      cases p with
      | error e => cases hok _ (List.mem_cons_self _ _)
      | ok recs0 =>
          rcases List.mem_cons.mp hrecs with h1 | h2
          · have hre : recs = recs0 := by injection h1
            subst hre
            exact hasSource_syncPages emb f now rest _ r.id
              (hasSource_commitRecords_mem emb db recs r hr hb)
          · exact ih _ (fun p hp => hok p (List.mem_cons_of_mem _ hp)) h2

theorem watermarkOf_update_filter_other (emb : String → List Int) (db : DB)
    (g f : String) (now : Nat) (pages : List (Except Unit (List Record)))
    (hne : f ≠ g) :
    watermarkOf (update_filter emb db g now pages) f = watermarkOf db f := by
  unfold update_filter
  induction pages generalizing db with
  | nil => exact watermarkOf_setWatermark_other db g f now hne
  | cons p rest ih =>
      cases p with
      | error e => rfl
      | ok recs =>
          calc watermarkOf (syncPages emb g now rest (commitRecords emb db recs)) f
              = watermarkOf (commitRecords emb db recs) f := ih _
            _ = watermarkOf db f := by
                unfold watermarkOf
                rw [queries_commitRecords]

/-! ### Claim theorems: filter sync -/

/-- Claim C2: for a filter, the watermark never decreases over a sync cycle;
it is advanced (to `now`) only when every page of the cycle was fetched and
all its records committed, and a cycle that fails mid-way leaves the
watermark exactly where it was, so the next cycle reprocesses the same
window.  The hypothesis `w ≤ now` reflects that the stored watermark is a
past date and `now` is the current one. -/
theorem c2_watermark_monotone (emb : String → List Int) (db : DB) (f : String)
    (w now : Nat) (pages : List (Except Unit (List Record)))
    (hw : watermarkOf db f = some w) (hnow : w ≤ now) :
    (∃ w', watermarkOf (update_filter emb db f now pages) f = some w' ∧ w ≤ w')
    ∧ ((∃ p ∈ pages, pageOk p = false) →
        watermarkOf (update_filter emb db f now pages) f = some w)
    ∧ ((∀ p ∈ pages, pageOk p = true) →
        watermarkOf (update_filter emb db f now pages) f = some now
        ∧ ∀ recs, Except.ok recs ∈ pages → ∀ r ∈ recs,
            isBlank r.text = false →
              hasSource (update_filter emb db f now pages) r.id = true) := by
  refine ⟨?_, ?_, ?_⟩
  · by_cases hall : ∀ p ∈ pages, pageOk p = true
    · exact ⟨now, watermarkOf_syncPages_ok emb f now pages db w hall hw, hnow⟩
    · push_neg at hall
      rcases hall with ⟨p, hp, hop⟩
      refine ⟨w, ?_, le_refl w⟩
      show watermarkOf (syncPages emb f now pages db) f = some w
      rw [watermarkOf_syncPages_err emb f now pages db
            ⟨p, hp, Bool.not_eq_true _ ▸ hop⟩]
      exact hw
  · intro herr
    show watermarkOf (syncPages emb f now pages db) f = some w
    rw [watermarkOf_syncPages_err emb f now pages db herr]
    exact hw
  · intro hok
    exact ⟨watermarkOf_syncPages_ok emb f now pages db w hok hw,
           fun recs hrecs r hr hb =>
             hasSource_syncPages_mem emb f now pages db recs r hok hrecs hr hb⟩

/-- Claim C3: the `update_filters` command runs `update_filter` for every
stored filter; a failing fetch for one filter neither prevents the records
of the other (successfully fetched) filters from being committed nor
touches the failing filter's own watermark. -/
theorem hasSource_syncFold (emb : String → List Int) (now : Nat)
    (pages : String → List (Except Unit (List Record))) (fs : List String)
    (d : DB) (j : String) (h : hasSource d j = true) :
    hasSource (fs.foldl (fun d g => update_filter emb d g now (pages g)) d) j
      = true := by
  induction fs generalizing d with
  | nil => exact h
  | cons g rest ih => exact ih _ (hasSource_syncPages emb g now (pages g) d j h)

theorem watermarkOf_syncFold_notmem (emb : String → List Int) (now : Nat)
    (pages : String → List (Except Unit (List Record))) (fs : List String)
    (d : DB) (f : String) (hf : f ∉ fs) :
    watermarkOf (fs.foldl (fun d g => update_filter emb d g now (pages g)) d) f
      = watermarkOf d f := by
  induction fs generalizing d with
  | nil => rfl
  | cons g rest ih =>
      have hfg : f ≠ g := fun h => hf (h ▸ List.mem_cons_self _ _)
      have hfr : f ∉ rest := fun h => hf (List.mem_cons_of_mem _ h)
      calc watermarkOf (rest.foldl _ (update_filter emb d g now (pages g))) f
          = watermarkOf (update_filter emb d g now (pages g)) f := ih _ hfr
        _ = watermarkOf d f :=
            watermarkOf_update_filter_other emb d g f now (pages g) hfg

theorem hasSource_syncFold_mem (emb : String → List Int) (now : Nat)
    (pages : String → List (Except Unit (List Record))) (fs : List String)
    (d : DB) (f : String) (recs : List Record) (r : Record) (hf : f ∈ fs)
    (hok : ∀ p ∈ pages f, pageOk p = true) (hrecs : Except.ok recs ∈ pages f)
    (hr : r ∈ recs) (hb : isBlank r.text = false) :
    hasSource (fs.foldl (fun d g => update_filter emb d g now (pages g)) d) r.id
      = true := by
  induction fs generalizing d with
  | nil => cases hf
  | cons g rest ih =>
      rcases List.mem_cons.mp hf with h1 | h2
      · subst h1
        exact hasSource_syncFold emb now pages rest _ r.id
          (hasSource_syncPages_mem emb f now (pages f) d recs r hok hrecs hr hb)
      · exact ih _ h2

theorem watermarkOf_syncFold_err (emb : String → List Int) (now : Nat)
    (pages : String → List (Except Unit (List Record))) (fs : List String)
    (d : DB) (f : String) (hnodup : fs.Nodup) (hf : f ∈ fs)
    (herr : ∃ p ∈ pages f, pageOk p = false) :
    watermarkOf (fs.foldl (fun d g => update_filter emb d g now (pages g)) d) f
      = watermarkOf d f := by
  induction fs generalizing d with
  | nil => cases hf
  | cons g rest ih =>
      rcases List.mem_cons.mp hf with h1 | h2
      · subst h1
        have hfr : f ∉ rest := (List.nodup_cons.mp hnodup).1
        calc watermarkOf (rest.foldl _ (update_filter emb d f now (pages f))) f
            = watermarkOf (update_filter emb d f now (pages f)) f :=
              watermarkOf_syncFold_notmem emb now pages rest _ f hfr
          _ = watermarkOf d f :=
              watermarkOf_syncPages_err emb f now (pages f) d herr
      · have hgf : f ≠ g := by
          intro h
          rw [h] at h2
          exact (List.nodup_cons.mp hnodup).1 h2
        calc watermarkOf (rest.foldl _ (update_filter emb d g now (pages g))) f
            = watermarkOf (update_filter emb d g now (pages g)) f :=
              ih _ (List.nodup_cons.mp hnodup).2 h2
          _ = watermarkOf d f :=
              watermarkOf_update_filter_other emb d g f now (pages g) hgf

/-- Claim C3: the `update_filters` command runs `update_filter` for every
stored filter; a failing fetch for one filter neither prevents the records
of the other (successfully fetched) filters from being committed nor
touches the failing filter's own watermark. -/
theorem c3_sync_all_isolated (emb : String → List Int) (db : DB) (now : Nat)
    (pages : String → List (Except Unit (List Record)))
    (hnodup : (db.queries.map (·.filter)).Nodup) :
    (∀ f ∈ db.queries.map (·.filter),
      (∀ p ∈ pages f, pageOk p = true) →
        ∀ recs, Except.ok recs ∈ pages f → ∀ r ∈ recs,
          isBlank r.text = false →
            hasSource (update_filters emb db now pages) r.id = true)
    ∧ (∀ f ∈ db.queries.map (·.filter),
      (∃ p ∈ pages f, pageOk p = false) →
        watermarkOf (update_filters emb db now pages) f = watermarkOf db f) := by
  constructor
  · intro f hf hok recs hrecs r hr hb
    show hasSource ((db.queries.map (·.filter)).foldl
        (fun d g => update_filter emb d g now (pages g)) db) r.id = true
    exact hasSource_syncFold_mem emb now pages (db.queries.map (·.filter)) db f
      recs r hf hok hrecs hr hb
  · intro f hf herr
    show watermarkOf ((db.queries.map (·.filter)).foldl
        (fun d g => update_filter emb d g now (pages g)) db) f = watermarkOf db f
    exact watermarkOf_syncFold_err emb now pages (db.queries.map (·.filter)) db f
      hnodup hf herr

/-- Witness for C2 at a concrete filter (watermark 3, now 5) and a single
successfully fetched page: the watermark advances to 5 and the fetched
record is stored. -/
theorem c2_watermark_monotone_witness :
    ((∃ w', watermarkOf (update_filter embW dbC2 "f1" 5 pagesC2) "f1" = some w'
        ∧ 3 ≤ w')
      ∧ ((∃ p ∈ pagesC2, pageOk p = false) →
          watermarkOf (update_filter embW dbC2 "f1" 5 pagesC2) "f1" = some 3)
      ∧ ((∀ p ∈ pagesC2, pageOk p = true) →
          watermarkOf (update_filter embW dbC2 "f1" 5 pagesC2) "f1" = some 5
          ∧ ∀ recs, Except.ok recs ∈ pagesC2 → ∀ r ∈ recs,
              isBlank r.text = false →
                hasSource (update_filter embW dbC2 "f1" 5 pagesC2) r.id = true))
    ∧ hasSource (update_filter embW dbC2 "f1" 5 pagesC2) "r1" = true :=
  ⟨c2_watermark_monotone embW dbC2 "f1" 3 5 pagesC2 (by decide) (by decide),
   by decide⟩

/-- Witness for C3: filter `f1`'s fetch fails while `f2`'s succeeds; `f2`'s
record is still committed and `f1`'s watermark is untouched. -/
theorem c3_sync_all_isolated_witness :
    ((∀ f ∈ dbC2.queries.map (·.filter),
        (∀ p ∈ pagesC3 f, pageOk p = true) →
          ∀ recs, Except.ok recs ∈ pagesC3 f → ∀ r ∈ recs,
            isBlank r.text = false →
              hasSource (update_filters embW dbC2 5 pagesC3) r.id = true)
      ∧ (∀ f ∈ dbC2.queries.map (·.filter),
        (∃ p ∈ pagesC3 f, pageOk p = false) →
          watermarkOf (update_filters embW dbC2 5 pagesC3) f
            = watermarkOf dbC2 f))
    ∧ hasSource (update_filters embW dbC2 5 pagesC3) "r2" = true
    ∧ watermarkOf (update_filters embW dbC2 5 pagesC3) "f1" = some 3
    ∧ watermarkOf (update_filters embW dbC2 5 pagesC3) "f2" = some 5 :=
  ⟨c3_sync_all_isolated embW dbC2 5 pagesC3 (by decide),
   by decide, by decide, by decide⟩

/-! ### Lemmas: vector retrieval -/

theorem sorted_vector_top_k (db : DB) (q : List Int) (k : Nat) :
    List.Pairwise (SimGe q) (vector_top_k db q k) :=
  List.Pairwise.sublist (List.take_sublist k _)
    (List.sorted_insertionSort (SimGe q) db.sources)

theorem vector_top_k_complete (db : DB) (q : List Int) (k : Nat) (r : Source)
    (hr : r ∈ db.sources) (hnot : r ∉ vector_top_k db q k) :
    ∀ x ∈ vector_top_k db q k,
      simKey q r.embedding ≤ simKey q x.embedding := by
  intro x hx
  have hperm := List.perm_insertionSort (SimGe q) db.sources
  have hsorted : List.Pairwise (SimGe q) (List.insertionSort (SimGe q) db.sources) :=
    List.sorted_insertionSort (SimGe q) db.sources
  have hrS : r ∈ List.insertionSort (SimGe q) db.sources := hperm.mem_iff.mpr hr
  have hsplit : r ∈ (List.insertionSort (SimGe q) db.sources).take k
      ∨ r ∈ (List.insertionSort (SimGe q) db.sources).drop k := by
    rw [← List.mem_append, List.take_append_drop]
    exact hrS
  have hrd : r ∈ (List.insertionSort (SimGe q) db.sources).drop k := by
    rcases hsplit with h | h
    · exact absurd h hnot
    · exact h
  have hpw := hsorted
  rw [← List.take_append_drop k (List.insertionSort (SimGe q) db.sources),
      List.pairwise_append] at hpw
  exact hpw.2.2 x hx r hrd

/-! ### Claim theorems: vector retrieval -/

/-- Claim C5: `vsearch` reports the rows of the `n` nearest neighbours of
the query embedding in ascending cosine-distance order, i.e. non-increasing
similarity order (via the order-equivalent key `simKey`, see its doc
comment), and they really are the `n` closest: every stored row left out is
no closer than any row returned. -/
theorem c5_vsearch_ordered (db : DB) (q : List Int) (n : Nat) :
    List.Pairwise
      (fun a b => simKey q b.embedding ≤ simKey q a.embedding)
      (vector_top_k db q n)
    ∧ (∀ r ∈ db.sources, r ∉ vector_top_k db q n →
        ∀ x ∈ vector_top_k db q n,
          simKey q r.embedding ≤ simKey q x.embedding)
    ∧ vsearch db q n
        = (vector_top_k db q n).map
            (fun r => (r.source, r.text, simKey q r.embedding)) :=
  ⟨sorted_vector_top_k db q n,
   fun r hr hnot => vector_top_k_complete db q n r hr hnot,
   rfl⟩

/-- Witness for C5 on a concrete two-row corpus: the reported scores
4 and 2 come out in non-increasing order. -/
theorem c5_vsearch_ordered_witness :
    (List.Pairwise
        (fun a b => simKey [2, 0] b.embedding ≤ simKey [2, 0] a.embedding)
        (vector_top_k dbC4w [2, 0] 2)
      ∧ (∀ r ∈ dbC4w.sources, r ∉ vector_top_k dbC4w [2, 0] 2 →
          ∀ x ∈ vector_top_k dbC4w [2, 0] 2,
            simKey [2, 0] r.embedding ≤ simKey [2, 0] x.embedding)
      ∧ vsearch dbC4w [2, 0] 2
          = (vector_top_k dbC4w [2, 0] 2).map
              (fun r => (r.source, r.text, simKey [2, 0] r.embedding)))
    ∧ vsearch dbC4w [2, 0] 2 = [("A", "ta", 4), ("B", "tb", mkRat 4 2)] :=
  ⟨c5_vsearch_ordered dbC4w [2, 0] 2, by decide⟩

/-- Counterexample to claim C4 as stated: with two rows of identical
embedding (`A` inserted before `B`), `similar B 1` fetches the top 2 rows
`[A, B]` (ties are broken by insertion order) and drops the first, so the
queried identifier `B` itself remains in the result. -/
theorem c4_self_exclusion_counterexample :
    similar dbC4 "B" 1 = Except.ok [("B", "tb")]
    ∧ "B" ∈ [("B", "tb")].map Prod.fst :=
  ⟨by decide, by decide⟩

/-- Claim C4 amended: `similar` queries the vector index for `n + 1`
neighbours and drops only the first returned row.  When the stored
identifiers are unique and the query row is strictly closer to itself than
every other row (no other row at cosine distance 0), that first row is the
query row, so the result never contains the queried identifier.  (Without
the strictness condition the claim fails, see the counterexample.) -/
theorem c4_self_exclusion_amended (db : DB) (s : String) (n : Nat)
    (row : Source)
    (hrow : db.sources.find? (fun r => decide (r.source = s)) = some row)
    (hnodup : UniqIds db)
    (hstrict : ∀ r ∈ db.sources, r.source ≠ s →
        simKey row.embedding r.embedding
          < simKey row.embedding row.embedding) :
    ∀ l, similar db s n = Except.ok l → ∀ p ∈ l, p.1 ≠ s := by
  intro l hl p hp hps
  simp only [similar, hrow] at hl
  injection hl with hl
  subst hl
  rcases List.mem_map.mp hp with ⟨r, hrmem, hrp⟩
  have hrs : r.source = s := by rw [← hps, ← hrp]
  have hrowmem : row ∈ db.sources := List.mem_of_find?_eq_some hrow
  have hrows : row.source = s := by
    have h := List.find?_some hrow
    simpa using h
  have hperm := List.perm_insertionSort (SimGe row.embedding) db.sources
  have hsorted : List.Pairwise (SimGe row.embedding)
      (List.insertionSort (SimGe row.embedding) db.sources) :=
    List.sorted_insertionSort (SimGe row.embedding) db.sources
  have hnd : (List.insertionSort (SimGe row.embedding) db.sources).Nodup :=
    hperm.symm.nodup (List.Nodup.of_map _ hnodup)
  have hrmem2 : r ∈ (List.insertionSort (SimGe row.embedding) db.sources).drop 1 := by
    have h1 : r ∈ ((List.insertionSort (SimGe row.embedding) db.sources).take (n + 1)).drop 1 :=
      hrmem
    rw [List.drop_take] at h1
    exact (List.take_sublist _ _).mem h1
  cases hS : List.insertionSort (SimGe row.embedding) db.sources with
  | nil =>
      rw [hS] at hperm
      exact absurd (hperm.symm.mem_iff.mp hrowmem) (List.not_mem_nil row)
  | cons hd tS =>
      rw [hS] at hrmem2 hsorted hnd hperm
      simp only [List.drop_succ_cons, List.drop_zero] at hrmem2
      have hrsrc : r ∈ db.sources := hperm.mem_iff.mp (List.mem_cons_of_mem hd hrmem2)
      have hreq : r = row :=
        List.inj_on_of_nodup_map hnodup hrsrc hrowmem (by rw [hrs, hrows])
      have hrowtS : row ∈ tS := hreq ▸ hrmem2
      have hrel : SimGe row.embedding hd row :=
        List.rel_of_sorted_cons hsorted row hrowtS
      by_cases hhd : hd.source = s
      · have hhdmem : hd ∈ db.sources := hperm.mem_iff.mp (List.mem_cons_self hd tS)
        have : hd = row :=
          List.inj_on_of_nodup_map hnodup hhdmem hrowmem (by rw [hhd, hrows])
        rw [this] at hnd
        exact (List.nodup_cons.mp hnd).1 hrowtS
      · have hhdmem : hd ∈ db.sources := hperm.mem_iff.mp (List.mem_cons_self hd tS)
        have hlt := hstrict hd hhdmem hhd
        exact absurd (lt_of_le_of_lt hrel hlt) (lt_irrefl _)

/-- Witness for the amended C4 on a concrete two-row corpus with distinct
embeddings: the neighbour list of `A` is exactly `[B]`. -/
theorem c4_self_exclusion_amended_witness :
    (∀ l, similar dbC4w "A" 1 = Except.ok l → ∀ p ∈ l, p.1 ≠ "A")
    ∧ similar dbC4w "A" 1 = Except.ok [("B", "tb")] :=
  ⟨c4_self_exclusion_amended dbC4w "A" 1
      { source := "A", text := "ta", embedding := [2, 0] }
      (by decide) (by unfold UniqIds; decide) (by decide),
   by decide⟩

end Litdb
